import Mathlib

/-!
Verification of the mcp-client repository's core: the JSON value model used
for tool-call arguments, the provider-adapter serializers/parsers of
`src/lib/llm-service.ts`, the ReAct agent loop of `src/lib/agent.ts`, and the
session state machine of `src/lib/mcp-client.ts`.

Modelling conventions:
- JavaScript exceptions become `Except String` / `Option`.
- `JSON.stringify` / `JSON.parse` (platform builtins) are modelled on a JSON
  value type whose numbers are integers (the arguments seen by this program
  are JSON; float printing is out of scope) and whose string escaping covers
  the quote, backslash, newline, tab and carriage-return escapes; other
  control characters are carried verbatim.
- Wall-clock reads (`Date.now()`) become an explicit `now : Nat` parameter;
  step ids and timestamps, which claims never inspect, are omitted from the
  step records.
- JavaScript truthiness (`x || y`, `if (x)`) is modelled explicitly where the
  source relies on it (`jsOr`, `jsTruthy`).
-/

-- ═══════════════════ JSON values (tool-call arguments) ═══════════════════

/-- JSON values, as passed around in `ToolCall.arguments`
(TypeScript `Record<string, unknown>` populated from JSON). Numbers are
modelled as integers. -/
inductive Json where
  | null : Json
  | bool : Bool → Json
  | num : Int → Json
  | str : String → Json
  | arr : List Json → Json
  | obj : List (String × Json) → Json
deriving Repr

/-- Decimal digit test on a character, as used by the modelled number parser. -/
def isDigitC (c : Char) : Bool := 48 ≤ c.toNat && c.toNat ≤ 57

/-- Decimal digits of `n`, most significant first (models the decimal printing
used by `JSON.stringify` and by JavaScript template literals). -/
def natChars (n : Nat) : List Char :=
  if h : n < 10 then [Char.ofNat (48 + n)]
  else natChars (n / 10) ++ [Char.ofNat (48 + n % 10)]
termination_by n
decreasing_by exact Nat.div_lt_self (by omega) (by omega)

/-- Decimal printing of an integer. -/
def intChars : Int → List Char
  | Int.ofNat n => natChars n
  | Int.negSucc n => '-' :: natChars (n + 1)

/-- Value of a digit string, most significant first. -/
def digitsVal (ds : List Char) : Nat :=
  ds.foldl (fun a c => a * 10 + (c.toNat - 48)) 0

/-- One character of JSON string-escaping (`JSON.stringify` semantics for the
quote, backslash, newline, tab and carriage-return characters). -/
def escChar (c : Char) : List Char :=
  if c = '"' then ['\\', '"']
  else if c = '\\' then ['\\', '\\']
  else if c = '\n' then ['\\', 'n']
  else if c = '\t' then ['\\', 't']
  else if c = '\r' then ['\\', 'r']
  else [c]

/-- JSON string-escaping of a character list. -/
def escapeChars : List Char → List Char
  | [] => []
  | c :: cs => escChar c ++ escapeChars cs

/-- Inverse of `escChar` on escape letters (`JSON.parse` semantics). -/
def unescChar (c : Char) : Option Char :=
  if c = '"' then some '"'
  else if c = '\\' then some '\\'
  else if c = 'n' then some '\n'
  else if c = 't' then some '\t'
  else if c = 'r' then some '\r'
  else none

/-- Parse the body of a JSON string up to its closing quote, undoing
`escChar`; returns the decoded characters and the input after the quote. -/
def parseStrBody (cs : List Char) : Option (List Char × List Char) :=
  match cs with
  | [] => none
  | c :: rest =>
    if c = '"' then some ([], rest)
    else if c = '\\' then
      match rest with
      | [] => none
      | e :: rest2 =>
        match unescChar e, parseStrBody rest2 with
        | some u, some (s, r) => some (u :: s, r)
        | _, _ => none
    else
      match parseStrBody rest with
      | some (s, r) => some (c :: s, r)
      | none => none
termination_by cs.length
decreasing_by all_goals simp +arith

/-- Drop an expected literal from the front of the input, or fail. -/
def dropLit : List Char → List Char → Option (List Char)
  | [], cs => some cs
  | _ :: _, [] => none
  | l :: ls, c :: cs => if c = l then dropLit ls cs else none

mutual

/-- `JSON.stringify` on the modelled values (no insignificant whitespace,
which is what the JavaScript builtin emits). -/
def stringifyVal : Json → List Char
  | .null => ['n', 'u', 'l', 'l']
  | .bool b => if b then ['t', 'r', 'u', 'e'] else ['f', 'a', 'l', 's', 'e']
  | .num i => intChars i
  | .str s => '"' :: (escapeChars s.data ++ ['"'])
  | .arr [] => ['[', ']']
  | .arr (j :: js) => '[' :: (stringifyVal j ++ stringifyElems js ++ [']'])
  | .obj [] => ['{', '}']
  | .obj (kv :: kvs) => '{' :: (stringifyMember kv ++ stringifyMembers kvs ++ ['}'])

/-- The `,`-prefixed encodings of the remaining array elements. -/
def stringifyElems : List Json → List Char
  | [] => []
  | j :: js => ',' :: (stringifyVal j ++ stringifyElems js)

/-- One `"key":value` object member. -/
def stringifyMember : String × Json → List Char
  | (k, v) => '"' :: (escapeChars k.data ++ ['"', ':'] ++ stringifyVal v)

/-- The `,`-prefixed encodings of the remaining object members. -/
def stringifyMembers : List (String × Json) → List Char
  | [] => []
  | kv :: kvs => ',' :: (stringifyMember kv ++ stringifyMembers kvs)

end

mutual

/-- Recursive-descent parser for one JSON value (models `JSON.parse` on the
grammar fragment `stringifyVal` emits); `fuel` bounds the recursion depth. -/
def parseVal : Nat → List Char → Option (Json × List Char)
  | 0, _ => none
  | _ + 1, [] => none
  | fuel + 1, c :: cs =>
    if c = 'n' then (dropLit ['u', 'l', 'l'] cs).map (fun r => (Json.null, r))
    else if c = 't' then (dropLit ['r', 'u', 'e'] cs).map (fun r => (Json.bool true, r))
    else if c = 'f' then (dropLit ['a', 'l', 's', 'e'] cs).map (fun r => (Json.bool false, r))
    else if c = '"' then (parseStrBody cs).map (fun p => (Json.str (String.mk p.1), p.2))
    else if c = '[' then
      match cs with
      | [] => none
      | d :: r => if d = ']' then some (Json.arr [], r)
                  else (parseElems fuel (d :: r)).map (fun p => (Json.arr p.1, p.2))
    else if c = '{' then
      match cs with
      | [] => none
      | d :: r => if d = '}' then some (Json.obj [], r)
                  else (parseMembers fuel (d :: r)).map (fun p => (Json.obj p.1, p.2))
    else if c = '-' then
      let ds := cs.takeWhile isDigitC
      if ds.isEmpty then none
      else some (Json.num (-(digitsVal ds : Int)), cs.dropWhile isDigitC)
    else if isDigitC c then
      some (Json.num (digitsVal ((c :: cs).takeWhile isDigitC)),
            (c :: cs).dropWhile isDigitC)
    else none

/-- Parse `value (',' value)* ']'` — the non-empty element list of an array. -/
def parseElems : Nat → List Char → Option (List Json × List Char)
  | 0, _ => none
  | fuel + 1, cs =>
    match parseVal fuel cs with
    | none => none
    | some (v, r) =>
      match r with
      | [] => none
      | d :: r2 =>
        if d = ',' then
          match parseElems fuel r2 with
          | some (vs, r3) => some (v :: vs, r3)
          | none => none
        else if d = ']' then some ([v], r2)
        else none

/-- Parse `string ':' value (',' member)* '}'` — the non-empty member list of
an object. -/
def parseMembers : Nat → List Char → Option (List (String × Json) × List Char)
  | 0, _ => none
  | fuel + 1, cs =>
    match cs with
    | [] => none
    | c :: cs2 =>
      if c = '"' then
        match parseStrBody cs2 with
        | none => none
        | some (k, r) =>
          match r with
          | [] => none
          | d :: r2 =>
            if d = ':' then
              match parseVal fuel r2 with
              | none => none
              | some (v, r3) =>
                match r3 with
                | [] => none
                | e :: r4 =>
                  if e = ',' then
                    match parseMembers fuel r4 with
                    | some (ms, r5) => some ((String.mk k, v) :: ms, r5)
                    | none => none
                  else if e = '}' then some ([(String.mk k, v)], r4)
                  else none
            else none
      else none

end

mutual

/-- Recursion depth `parseVal` needs on the encoding of `j`. -/
def needFuel : Json → Nat
  | .null => 1
  | .bool _ => 1
  | .num _ => 1
  | .str _ => 1
  | .arr [] => 1
  | .arr (j :: js) => needElems (j :: js) + 1
  | .obj [] => 1
  | .obj (kv :: kvs) => needMembers (kv :: kvs) + 1

/-- Recursion depth `parseElems` needs. -/
def needElems : List Json → Nat
  | [] => 0
  | j :: js => max (needFuel j) (needElems js) + 1

/-- Recursion depth `parseMembers` needs. -/
def needMembers : List (String × Json) → Nat
  | [] => 0
  | (_, v) :: kvs => max (needFuel v) (needMembers kvs) + 1

end

/-- `JSON.stringify` producing a `String`. -/
def stringJson (j : Json) : String := String.mk (stringifyVal j)

/-- `JSON.parse`: parses a whole string as one JSON value.  The fuel
`length + 1` dominates the needed recursion depth on every string that
`stringJson` produces. -/
def parseJson (s : String) : Option Json :=
  match parseVal (s.data.length + 1) s.data with
  | some (j, []) => some j
  | _ => none

-- ═══════════════════ Shared data model (mcp-client.ts / llm-service.ts) ═══

/-- JavaScript `s || d` on strings: the empty string is falsy. -/
def jsOr (s d : String) : String := if s = "" then d else s

/-- JavaScript `o || d` where `o` is an optional string (absent and empty are
both falsy). -/
def jsOrOpt (o : Option String) (d : String) : String :=
  match o with
  | some s => jsOr s d
  | none => d

/-- JavaScript truthiness of a JSON value (`if (v)`, `v || ...`). -/
def jsTruthy : Json → Bool
  | .null => false
  | .bool b => b
  | .num n => n != 0
  | .str s => s != ""
  | .arr _ => true
  | .obj _ => true

/-- `McpTool` of mcp-client.ts: one tool-catalog entry. -/
structure McpTool where
  name : String
  description : String
  inputSchema : Json
deriving Repr

/-- One element of an MCP tool result's `content` array. -/
structure McpContent where
  type : String
  text : String
deriving Repr, DecidableEq

/-- `McpCallResult` of mcp-client.ts: tool-result payload with the soft
error flag. -/
structure McpCallResult where
  content : List McpContent
  isError : Option Bool
deriving Repr, DecidableEq

/-- `ToolCall` of llm-service.ts. `arguments` (TypeScript
`Record<string, unknown>`) is modelled as an arbitrary JSON value, since the
parse sites cast without validating. -/
structure ToolCall where
  id : String
  name : String
  arguments : Json
deriving Repr

/-- Message roles of `ChatMessage`. -/
inductive Role where
  | user
  | assistant
  | system
  | tool
deriving Repr, DecidableEq

/-- `ChatMessage` of llm-service.ts. -/
structure ChatMessage where
  role : Role
  content : String
  toolCalls : Option (List ToolCall) := none
  toolCallId : Option String := none
  toolName : Option String := none
  toolResult : Option McpCallResult := none
deriving Repr

/-- `LlmResponse` of llm-service.ts: the normalized adapter result. -/
structure LlmResponse where
  content : String
  toolCalls : Option (List ToolCall) := none
deriving Repr

-- ═══════════════════ Provider adapters (llm-service.ts) ═══════════════════

/-- `SYSTEM_PROMPT` of llm-service.ts (lines 75-103): a constant — it takes
no parameters and mentions no wallet data. -/
def SYSTEM_PROMPT : String :=
  "You are a TRON blockchain assistant agent with access to specialized tools for querying blockchain data.\n\n## Agent Behaviour\nYou follow the ReAct (Reasoning + Acting) pattern:\n1. **Think** about the user's question and decide what information you need.\n2. **Act** by calling one or more tools to gather data.\n3. **Observe** the tool results and decide if you have enough information.\n4. **Repeat** steps 1-3 if more data is needed.\n5. **Answer** when you have sufficient information.\n\n## Tool Usage Guidelines\n- You can call MULTIPLE tools in a single turn if the data is independent.\n- If a tool returns an error, try an alternative approach or explain the limitation.\n- When building transactions, ALWAYS remind users to review and sign locally.\n- For risk analysis, clearly explain risk factors and severity levels.\n- Present numerical data clearly (format TRX amounts, use appropriate units).\n- Use get_transaction_raw_data for detailed MongoDB data (internal txs, contract input data).\n- Use get_transaction_status for quick TronGrid API lookups.\n\n## Available Capabilities\n- Query account info (TRX balance, energy, bandwidth, TRC20 tokens)\n- Check transaction status and full raw data (including internal transactions)\n- Get network parameters (energy/bandwidth prices)\n- Analyze address security and risk scores\n- Build unsigned transfer transactions (user must sign locally)\n- Analyze address transaction graphs and fund flows\n- Query contract callers, methods, and interactions\n\nRemember: You CANNOT sign or broadcast transactions. Only build unsigned transactions for user review."

/-- One serialized tool call on the OpenAI-family wire: the
`{id, type:"function", function:{name, arguments}}` object, with `arguments`
already a JSON string.  The same shape appears in requests and responses. -/
structure OAIWireCall where
  id : String
  fname : String
  fargs : String
deriving Repr, DecidableEq

/-- One formatted message of the OpenAI-family request body. -/
structure OAIMsg where
  role : String
  content : Option String
  tool_calls : Option (List OAIWireCall) := none
  tool_call_id : Option String := none
deriving Repr, DecidableEq

/-- Serialization of one `ToolCall` for the OpenAI family
(`JSON.stringify` on the arguments). -/
def serializeOAICall (tc : ToolCall) : OAIWireCall :=
  ⟨tc.id, tc.name, stringJson tc.arguments⟩

/-- The wire spelling of a message role. -/
def roleString : Role → String
  | .user => "user"
  | .assistant => "assistant"
  | .system => "system"
  | .tool => "tool"

/-- The message formatter of `callOpenAICompatible` (llm-service.ts lines
119-150): system prompt first, assistant tool-call messages re-serialized
with stringified arguments, tool messages with their `tool_call_id`. -/
def formatMessagesOpenAI (messages : List ChatMessage) : List OAIMsg :=
  ⟨"system", some SYSTEM_PROMPT, none, none⟩ ::
  messages.map (fun m =>
    if m.role = .assistant ∧ (m.toolCalls.getD []).isEmpty = false then
      ⟨"assistant",
       if m.content = "" then none else some m.content,
       some ((m.toolCalls.getD []).map serializeOAICall),
       none⟩
    else if m.role = .tool then
      ⟨"tool", some m.content, none, some (jsOrOpt m.toolCallId "")⟩
    else
      ⟨roleString m.role, some m.content, none, none⟩)

/-- The response message inside `choices[0]` of an OpenAI-family response. -/
structure OAIRespMsg where
  content : Option String
  tool_calls : Option (List OAIWireCall) := none
deriving Repr, DecidableEq

/-- An OpenAI-family response body (`{choices: [{message}]}`). -/
structure OAIResponse where
  choices : List OAIRespMsg
deriving Repr, DecidableEq

/-- `parseOpenAIResponse` (llm-service.ts lines 211-236).  `none` models the
JavaScript exceptions: indexing `choices[0]` of an empty array, and
`JSON.parse` failing on an argument string. -/
def parseOpenAIResponse (data : OAIResponse) : Option LlmResponse :=
  match data.choices.head? with
  | none => none
  | some message =>
    let content := jsOrOpt message.content ""
    match message.tool_calls with
    | some (tc :: tcs) =>
      ((tc :: tcs).mapM (fun w =>
        (parseJson w.fargs).map (fun a => (⟨w.id, w.fname, a⟩ : ToolCall)))).map
        (fun l => ⟨content, some l⟩)
    | _ => some ⟨content, none⟩

/-- A synthetic OpenAI-family response carrying the given text and wire
tool calls (the shape a vendor echoing the request's tool calls returns). -/
def mkOAIResponse (text : Option String) (wire : List OAIWireCall) : OAIResponse :=
  ⟨[⟨text, if wire = [] then none else some wire⟩]⟩

-- ─────────────────── Gemini adapter (candidate/parts family) ───────────────

/-- One part of a Gemini request `contents` entry, as `callGemini` builds
them (llm-service.ts lines 355-376). -/
inductive GOutPart where
  | text : String → GOutPart
  | functionCall : String → Json → GOutPart
  | functionResponse : String → String → GOutPart
deriving Repr

/-- One entry of the Gemini request `contents` array. -/
structure GOutMsg where
  role : String
  parts : List GOutPart
deriving Repr

/-- The conversation serializer of `callGemini` (llm-service.ts lines
355-376): system messages are skipped (the system prompt goes through
`systemInstruction`), assistant tool calls become `functionCall` parts with
the argument object (not a JSON string), tool results become a
`function`-role entry. -/
def formatGeminiContents (messages : List ChatMessage) : List GOutMsg :=
  messages.filterMap (fun m =>
    if m.role = .system then none
    else if m.role = .assistant ∧ (m.toolCalls.getD []).isEmpty = false then
      some ⟨"model",
        (if m.content = "" then [] else [.text m.content]) ++
        (m.toolCalls.getD []).map (fun tc => .functionCall tc.name tc.arguments)⟩
    else if m.role = .tool then
      some ⟨"function", [.functionResponse (m.toolName.getD "") m.content]⟩
    else
      some ⟨if m.role = .assistant then "model" else "user", [.text m.content]⟩)

/-- A `functionCall` object in a Gemini response part. -/
structure GFnCall where
  name : String
  args : Option Json
deriving Repr

/-- One part of a Gemini response candidate's content. -/
structure GPart where
  text : Option String := none
  functionCall : Option GFnCall := none
deriving Repr

/-- One Gemini response candidate (only `content.parts` is read). -/
structure GCandidate where
  parts : List GPart
deriving Repr

/-- A Gemini response body (`{candidates: [...]}`). -/
structure GeminiResponse where
  candidates : List GCandidate
deriving Repr

/-- The locally synthesized Gemini tool-call id
`` `gemini_tc_${Date.now()}_${result.toolCalls.length}` `` with the wall
clock made explicit. -/
def geminiId (now idx : Nat) : String :=
  String.mk ("gemini_tc_".data ++ natChars now ++ '_' :: natChars idx)

/-- One step of the Gemini response-part loop (llm-service.ts lines 406-417):
`if (part.text)` is JavaScript truthiness (absent or empty text falls
through), `part.functionCall.args || {}` defaults a falsy argument value to
the empty object. -/
def geminiStep (now : Nat) (acc : String × Option (List ToolCall)) (part : GPart) :
    String × Option (List ToolCall) :=
  if jsOr (part.text.getD "") "" ≠ "" then
    (acc.1 ++ part.text.getD "", acc.2)
  else
    match part.functionCall with
    | some fc =>
      let tcs := acc.2.getD []
      let args := match fc.args with
        | some v => if jsTruthy v then v else Json.obj []
        | none => Json.obj []
      (acc.1, some (tcs ++ [⟨geminiId now tcs.length, fc.name, args⟩]))
    | none => acc

/-- The response parser of `callGemini` (llm-service.ts lines 400-419):
reads `candidates[0]`, accumulates text and `functionCall` parts, and
synthesizes each tool-call id from the wall clock and the running index. -/
def parseGeminiResponse (now : Nat) (data : GeminiResponse) : LlmResponse :=
  match data.candidates.head? with
  | none => ⟨"", none⟩
  | some candidate =>
    let st := candidate.parts.foldl (geminiStep now) ("", none)
    ⟨st.1, st.2⟩

/-- A synthetic Gemini response whose single candidate carries the given
request parts echoed back in the response shape (`text` parts keep their
text, `functionCall` parts keep name and argument object). -/
def mkGeminiResponse (parts : List GOutPart) : GeminiResponse :=
  ⟨[⟨parts.filterMap (fun p =>
      match p with
      | .text s => some ⟨some s, none⟩
      | .functionCall n a => some ⟨none, some ⟨n, some a⟩⟩
      | .functionResponse _ _ => none)⟩]⟩

-- ─────────────────── Wallet context (agent.ts line 152) ───────────────────

/-- Modelled from the spec: the `WalletContext` type that agent.ts imports
from llm-service is absent from the repository's files; spec section 4.3
describes it as "optional contextual metadata (e.g. connected-wallet
address/network)". -/
structure WalletContext where
  address : String
  network : String
deriving Repr, DecidableEq

/-- The formatted message list produced for the LLM call that agent.ts
issues: agent.ts line 152 evaluates `callLlm(conversation, tools,
walletContext)`, but `callLlm` (llm-service.ts lines 428-445) declares only
`(messages, tools)`, so JavaScript discards the third argument — the
formatted request is built from the conversation alone. -/
def agentLlmMessages (conversation : List ChatMessage)
    (_walletContext : Option WalletContext) : List OAIMsg :=
  formatMessagesOpenAI conversation

-- ═══════════════════ Agent loop (agent.ts) ═══════════════════

/-- `AgentStepType` of agent.ts. -/
inductive AgentStepType where
  | thinking
  | tool_call
  | tool_result
  | answer
  | error
deriving Repr, DecidableEq

/-- `AgentStep` of agent.ts in its final (post-mutation) form.  The unique
step id and the `startedAt` / `completedAt` wall-clock timestamps, which no
claim inspects, are omitted. -/
structure AgentStep where
  type : AgentStepType
  content : Option String := none
  toolCall : Option ToolCall := none
  toolResult : Option McpCallResult := none
  toolName : Option String := none
  iteration : Nat
deriving Repr

/-- `AgentRunResult` of agent.ts (`durationMs`, pure wall clock, omitted). -/
structure AgentRunResult where
  answer : String
  steps : List AgentStep
  iterations : Nat
deriving Repr

/-- The environment a run of `runAgent` interacts with: the outcome of the
k-th `callLlm` invocation, the outcome of the k-th `callTool` invocation
(`Except.error` models a thrown exception carrying its message), and the
value of `signal?.aborted` observed at the top of iteration i. -/
structure AgentArgs where
  maxIterations : Nat
  llm : Nat → Except String LlmResponse
  tool : Nat → Except String McpCallResult
  abortedAt : Nat → Bool

/-- One entry of the loop's `toolResults` accumulator (agent.ts line 211). -/
structure ToolResultRec where
  id : String
  name : String
  result : McpCallResult
  error : Option String
deriving Repr

/-- The mutable loop state of `runAgent`: conversation, emitted steps,
iteration counter, and how many LLM / tool calls have been made so far. -/
structure LoopState where
  conversation : List ChatMessage
  steps : List AgentStep
  iteration : Nat
  llmIdx : Nat
  toolIdx : Nat

/-- What a finished run exposes: the returned `AgentRunResult` plus the
bookkeeping (total LLM calls, total tool executions, final conversation)
that the claims about call budgets quantify over. -/
structure RunOutcome where
  result : AgentRunResult
  llmCallCount : Nat
  toolExecCount : Nat
  finalConversation : List ChatMessage

/-- The tool-execution loop of one iteration (agent.ts lines 213-269): for
each requested call, a `tool_call` step, the execution, and a `tool_result`
step; a thrown execution error becomes an `isError` result holding the
message (lines 245-268). -/
def execToolCallsList (toolO : Nat → Except String McpCallResult)
    (startIdx iteration : Nat) :
    List ToolCall → List AgentStep × List ToolResultRec
  | [] => ([], [])
  | tc :: rest =>
    let callStep : AgentStep :=
      { type := .tool_call, toolCall := some tc, iteration := iteration }
    match toolO startIdx with
    | .ok result =>
      let resStep : AgentStep :=
        { type := .tool_result, toolResult := some result,
          toolName := some tc.name, iteration := iteration }
      let (ss, rs) := execToolCallsList toolO (startIdx + 1) iteration rest
      (callStep :: resStep :: ss, ⟨tc.id, tc.name, result, none⟩ :: rs)
    | .error e =>
      let errorResult : McpCallResult := ⟨[⟨"text", e⟩], some true⟩
      let resStep : AgentStep :=
        { type := .tool_result, toolResult := some errorResult,
          toolName := some tc.name, iteration := iteration }
      let (ss, rs) := execToolCallsList toolO (startIdx + 1) iteration rest
      (callStep :: resStep :: ss, ⟨tc.id, tc.name, errorResult, some e⟩ :: rs)

/-- `"\n"`-joined text of a tool result's content (agent.ts line 285). -/
def joinTexts (cs : List McpContent) : String :=
  String.intercalate "\n" (cs.map (fun c => c.text))

/-- The tool-role messages appended after an iteration's tool calls
(agent.ts lines 279-289): an error result becomes `"Error: " ++ message`,
the `toolCallId` is looked up from the original tool-call list with the
JavaScript `tc?.id || tr.id` fallback. -/
def buildToolMessages (tcs : List ToolCall) (trs : List ToolResultRec) :
    List ChatMessage :=
  trs.map (fun tr =>
    let found := tcs.find? (fun t => t.name = tr.name && t.id = tr.id)
    { role := .tool
      content := match tr.error with
        | some e => "Error: " ++ e
        | none => joinTexts tr.result.content
      toolCallId := some (jsOrOpt (found.map (fun t => t.id)) tr.id)
      toolName := some tr.name })

/-- The content the pending thinking step starts with (agent.ts line 143). -/
def thinkInit (iteration : Nat) : String :=
  if iteration = 0 then "Analyzing your request..." else "Processing tool results..."

/-- Terminal outcome when `signal?.aborted` is observed (agent.ts lines
125-137): the loop breaks, skips the under-cap limit branch, and falls
through to the final return (lines 330-335). -/
def cancelOutcome (st : LoopState) : RunOutcome :=
  let s : AgentStep :=
    { type := .error, content := some "Agent run was cancelled.",
      iteration := st.iteration }
  ⟨⟨"Agent loop ended unexpectedly.", st.steps ++ [s], st.iteration⟩,
   st.llmIdx, st.toolIdx, st.conversation⟩

/-- Terminal outcome when `callLlm` throws (agent.ts lines 153-176): the
pending thinking step keeps its initial content, an error step is appended,
and the apology answer carries the error message. -/
def llmFailOutcome (st : LoopState) (e : String) : RunOutcome :=
  let tStep : AgentStep :=
    { type := .thinking, content := some (thinkInit st.iteration),
      iteration := st.iteration }
  let eStep : AgentStep :=
    { type := .error, content := some ("LLM call failed: " ++ e),
      iteration := st.iteration }
  ⟨⟨"Sorry, I encountered an error: " ++ e, st.steps ++ [tStep, eStep],
    st.iteration + 1⟩,
   st.llmIdx + 1, st.toolIdx, st.conversation⟩

/-- Terminal outcome of a response with no tool calls (agent.ts lines
184-203): the completed thinking step plus an answer step, the answer being
the response text verbatim. -/
def answerOutcome (st : LoopState) (resp : LlmResponse) : RunOutcome :=
  let tStep : AgentStep :=
    { type := .thinking, content := some (jsOr resp.content "Done thinking."),
      iteration := st.iteration }
  let aStep : AgentStep :=
    { type := .answer, content := some resp.content, iteration := st.iteration }
  ⟨⟨resp.content, st.steps ++ [tStep, aStep], st.iteration + 1⟩,
   st.llmIdx + 1, st.toolIdx, st.conversation⟩

/-- The post-loop limit branch (agent.ts lines 294-328): a limit error step,
one synthetic user message asking for a summary, and exactly one further
`callLlm` whose failure yields the fixed apology.  (The source passes the
same tool catalog to that final call, but never executes tool calls from
it.) -/
def limitOutcome (A : AgentArgs) (st : LoopState) : RunOutcome :=
  let lStep : AgentStep :=
    { type := .error,
      content := some ("Reached maximum iterations (" ++ toString A.maxIterations
        ++ "). Providing best answer so far."),
      iteration := st.iteration }
  let conv2 := st.conversation ++
    [{ role := .user,
       content := "Please summarize the information gathered so far and provide a final answer." }]
  match A.llm st.llmIdx with
  | .ok r =>
    ⟨⟨jsOr r.content "I ran out of iterations. Here's what I found so far.",
      st.steps ++ [lStep], st.iteration⟩, st.llmIdx + 1, st.toolIdx, conv2⟩
  | .error _ =>
    ⟨⟨"I reached the maximum number of reasoning steps. Please try again with a simpler query.",
      st.steps ++ [lStep], st.iteration⟩, st.llmIdx + 1, st.toolIdx, conv2⟩

/-- The `while (iteration < maxIterations)` loop of `runAgent` (agent.ts
lines 123-292), with `fuel = maxIterations - iteration` making termination
structural; `fuel = 0` is exactly the `iteration >= maxIterations` exit into
the limit branch. -/
def loopAux (A : AgentArgs) : Nat → LoopState → RunOutcome
  | 0, st => limitOutcome A st
  | fuel + 1, st =>
    if A.abortedAt st.iteration then cancelOutcome st
    else
      match A.llm st.llmIdx with
      | .error e => llmFailOutcome st e
      | .ok resp =>
        let tcs := resp.toolCalls.getD []
        if tcs.isEmpty then answerOutcome st resp
        else
          let tStep : AgentStep :=
            { type := .thinking,
              content := some (jsOr resp.content "Deciding which tools to use..."),
              iteration := st.iteration }
          let conv1 :=
            if resp.content = "" then st.conversation
            else st.conversation ++ [{ role := .assistant, content := resp.content }]
          let (toolSteps, results) :=
            execToolCallsList A.tool st.toolIdx st.iteration tcs
          let conv2 := conv1 ++
            [{ role := .assistant, content := resp.content, toolCalls := some tcs }] ++
            buildToolMessages tcs results
          loopAux A fuel
            ⟨conv2, st.steps ++ tStep :: toolSteps, st.iteration + 1,
             st.llmIdx + 1, st.toolIdx + tcs.length⟩

/-- `runAgent` (agent.ts lines 98-336): starts from the history plus the new
user message and runs the loop with the full iteration budget. -/
def runAgent (userMessage : String) (history : List ChatMessage)
    (A : AgentArgs) : RunOutcome :=
  loopAux A A.maxIterations
    ⟨history ++ [{ role := .user, content := userMessage }], [], 0, 0, 0⟩

-- ═══════════════════ MCP session client (mcp-client.ts) ═══════════════════

/-- The observable state of a `McpClient` (mcp-client.ts lines 40-55):
`current` is whether `this.eventSource` holds a (non-closed) `EventSource`;
`leakedOpen` counts earlier `EventSource`s that were overwritten by a later
`connect()` without `close()` and therefore stay open with their listeners
attached; `pending` holds the keys of `pendingRequests`. -/
structure McpClientState where
  sessionId : Option String
  connected : Bool
  tools : List McpTool
  requestId : Nat
  pending : List Nat
  current : Bool
  leakedOpen : Nat

/-- The client state a freshly constructed `McpClient` starts in. -/
def mcpInit : McpClientState :=
  ⟨none, false, [], 0, [], false, 0⟩

/-- How many event channels are live (open with listeners attached). -/
def liveChannels (s : McpClientState) : Nat :=
  s.leakedOpen + (if s.current then 1 else 0)

/-- `disconnect()` (mcp-client.ts lines 114-123): closes the current
channel, nulls the session id, clears the connected flag, the cached tools
and the pending map.  `this.requestId` is not touched, and already-leaked
channels are unreachable, so neither changes. -/
def mcpDisconnect (s : McpClientState) : McpClientState :=
  { s with current := false, sessionId := none, connected := false,
           tools := [], pending := [] }

/-- The synchronous effect of entering `connect()` (mcp-client.ts lines
68-109): `this.eventSource = new EventSource(sseUrl)` overwrites the field
with a fresh open channel; the previous channel, if any, is never closed and
keeps its listeners, and neither `pendingRequests` nor `requestId` is
cleared. -/
def mcpConnectOpen (s : McpClientState) : McpClientState :=
  { s with current := true,
           leakedOpen := s.leakedOpen + (if s.current then 1 else 0) }

/-- The externally triggered transitions of the client that can touch the
pending map: `send` is `sendRequest` registering `++this.requestId`
(lines 175-188), `recv` is an inbound channel message handed to
`handleMessage` (`id = none` for a notification), `disconnect` and
`connectOpen` are the calls above. -/
inductive McpEvent where
  | send
  | recv : Option Nat → Bool → McpEvent
  | disconnect
  | connectOpen

/-- One transition of the client state; the second component lists the
promise settlements the transition performs, as `(request id, rejected?)`
(`handleMessage`, mcp-client.ts lines 227-246, is the only code that
resolves or rejects a pending promise; `disconnect` clears the map without
settling anything). -/
def mcpStep (s : McpClientState) : McpEvent → McpClientState × List (Nat × Bool)
  | .send =>
    ({ s with requestId := s.requestId + 1,
              pending := s.pending ++ [s.requestId + 1] }, [])
  | .recv none _ => (s, [])
  | .recv (some i) isErr =>
    if i ∈ s.pending then
      ({ s with pending := s.pending.erase i }, [(i, isErr)])
    else (s, [])
  | .disconnect => (mcpDisconnect s, [])
  | .connectOpen => (mcpConnectOpen s, [])

/-- All settlements performed along a sequence of events. -/
def traceSettlements (s : McpClientState) : List McpEvent → List (Nat × Bool)
  | [] => []
  | e :: es =>
    let (s2, out) := mcpStep s e
    out ++ traceSettlements s2 es

/-- A tail that cannot be mistaken for more digits of a number: empty, or
starting with a non-digit. -/
def goodTail (cs : List Char) : Prop :=
  ∀ c t, cs = c :: t → isDigitC c = false

/-- A concrete argument record used to evaluate the adapters on one input. -/
def exampleArgs : Json :=
  Json.obj [("address", Json.str "TXYZ"), ("limit", Json.num 10)]

/-- A concrete tool call carrying `exampleArgs`. -/
def exampleCall : ToolCall := ⟨"call_1", "get_account_info", exampleArgs⟩

/-- A concrete assistant message requesting `exampleCall`. -/
def exampleAssistantMsg : ChatMessage :=
  { role := .assistant, content := "", toolCalls := some [exampleCall] }

-- ═══════════════════ Lemmas: decimal printing ═══════════════════

theorem digit_ofNat_isDigit : ∀ d, d < 10 → isDigitC (Char.ofNat (48 + d)) = true := by
  decide

theorem digit_ofNat_toNat : ∀ d, d < 10 → (Char.ofNat (48 + d)).toNat = 48 + d := by
  decide

theorem natChars_ne_nil (n : Nat) : natChars n ≠ [] := by
  rw [natChars]
  split <;> simp

theorem natChars_digits (n : Nat) : ∀ c ∈ natChars n, isDigitC c = true := by
  induction n using Nat.strong_induction_on with
  | _ n ih =>
    rw [natChars]
    split
    case isTrue h =>
      intro c hc
      simp only [List.mem_singleton] at hc
      subst hc
      exact digit_ofNat_isDigit n h
    case isFalse h =>
      intro c hc
      rcases List.mem_append.mp hc with hc | hc
      · exact ih (n / 10) (Nat.div_lt_self (by omega) (by omega)) c hc
      · simp only [List.mem_singleton] at hc
        subst hc
        exact digit_ofNat_isDigit (n % 10) (Nat.mod_lt _ (by omega))

theorem digitsVal_append (ds : List Char) (c : Char) :
    digitsVal (ds ++ [c]) = digitsVal ds * 10 + (c.toNat - 48) := by
  simp [digitsVal, List.foldl_append]

theorem digitsVal_natChars (n : Nat) : digitsVal (natChars n) = n := by
  induction n using Nat.strong_induction_on with
  | _ n ih =>
    rw [natChars]
    split
    case isTrue h =>
      simp [digitsVal, digit_ofNat_toNat n h]
    case isFalse h =>
      rw [digitsVal_append, ih (n / 10) (Nat.div_lt_self (by omega) (by omega)),
        digit_ofNat_toNat (n % 10) (Nat.mod_lt _ (by omega))]
      omega

theorem takeWhile_all_append (p : Char → Bool) (xs rest : List Char)
    (hxs : ∀ c ∈ xs, p c = true)
    (hrest : ∀ c t, rest = c :: t → p c = false) :
    (xs ++ rest).takeWhile p = xs ∧ (xs ++ rest).dropWhile p = rest := by
  induction xs with
  | nil =>
    cases rest with
    | nil => simp
    | cons c t =>
      have := hrest c t rfl
      simp [List.takeWhile, List.dropWhile, this]
  | cons x xs ih =>
    have hx := hxs x (by simp)
    have hrec := ih (fun c hc => hxs c (by simp [hc]))
    simp [List.takeWhile, List.dropWhile, hx, hrec.1, hrec.2]

-- ═══════════════════ Lemmas: string escaping round trip ═══════════════════

theorem dropLit_append (l rest : List Char) : dropLit l (l ++ rest) = some rest := by
  induction l with
  | nil => rfl
  | cons c l ih => simp [dropLit, ih]

theorem parseStrBody_cons (c : Char) (rest : List Char) :
    parseStrBody (c :: rest) =
      (if c = '"' then some ([], rest)
       else if c = '\\' then
         match rest with
         | [] => none
         | e :: rest2 =>
           match unescChar e, parseStrBody rest2 with
           | some u, some (s, r) => some (u :: s, r)
           | _, _ => none
       else
         match parseStrBody rest with
         | some (s, r) => some (c :: s, r)
         | none => none) := by
  rw [parseStrBody.eq_def]

theorem parseStrBody_escape (l rest : List Char) :
    parseStrBody (escapeChars l ++ '"' :: rest) = some (l, rest) := by
  induction l with
  | nil =>
    simp [escapeChars, parseStrBody_cons]
  | cons c l ih =>
    by_cases h1 : c = '"'
    · subst h1
      simp [escapeChars, escChar, parseStrBody_cons, unescChar, ih]
    · by_cases h2 : c = '\\'
      · subst h2
        simp [escapeChars, escChar, parseStrBody_cons, unescChar, ih]
      · by_cases h3 : c = '\n'
        · subst h3
          simp [escapeChars, escChar, parseStrBody_cons, unescChar, ih]
        · by_cases h4 : c = '\t'
          · subst h4
            simp [escapeChars, escChar, parseStrBody_cons, unescChar, ih]
          · by_cases h5 : c = '\r'
            · subst h5
              simp [escapeChars, escChar, parseStrBody_cons, unescChar, ih]
            · simp [escapeChars, escChar, h1, h2, h3, h4, h5, parseStrBody_cons, ih]

-- ═══════════════════ Lemmas: JSON parser round trip ═══════════════════

theorem mkData (s : String) : String.mk s.data = s := rfl

theorem parseVal_digit (fuel : Nat) (c : Char) (cs : List Char)
    (h : isDigitC c = true) :
    parseVal (fuel + 1) (c :: cs) =
      some (Json.num (digitsVal ((c :: cs).takeWhile isDigitC)),
            (c :: cs).dropWhile isDigitC) := by
  have h1 : ¬(c = 'n') := by rintro rfl; simp [isDigitC] at h
  have h2 : ¬(c = 't') := by rintro rfl; simp [isDigitC] at h
  have h3 : ¬(c = 'f') := by rintro rfl; simp [isDigitC] at h
  have h4 : ¬(c = '"') := by rintro rfl; simp [isDigitC] at h
  have h5 : ¬(c = '[') := by rintro rfl; simp [isDigitC] at h
  have h6 : ¬(c = '{') := by rintro rfl; simp [isDigitC] at h
  have h7 : ¬(c = '-') := by rintro rfl; simp [isDigitC] at h
  simp [parseVal, h1, h2, h3, h4, h5, h6, h7, h]

theorem sv_head (j : Json) :
    ∃ c t, stringifyVal j = c :: t ∧ ¬(c = ']') ∧ ¬(c = '}') := by
  cases j with
  | null => exact ⟨'n', _, rfl, by decide, by decide⟩
  | bool b =>
    cases b with
    | false => exact ⟨'f', _, rfl, by decide, by decide⟩
    | true => exact ⟨'t', _, rfl, by decide, by decide⟩
  | num i =>
    cases i with
    | ofNat n =>
      cases hnc : natChars n with
      | nil => exact absurd hnc (natChars_ne_nil n)
      | cons c t =>
        have hd : isDigitC c = true := natChars_digits n c (by rw [hnc]; simp)
        refine ⟨c, t, by simp [stringifyVal, intChars, hnc], ?_, ?_⟩
        · rintro rfl; simp [isDigitC] at hd
        · rintro rfl; simp [isDigitC] at hd
    | negSucc n =>
      exact ⟨'-', natChars (n + 1), by simp [stringifyVal, intChars], by decide, by decide⟩
  | str s => exact ⟨'"', _, rfl, by decide, by decide⟩
  | arr l =>
    cases l with
    | nil => exact ⟨'[', _, rfl, by decide, by decide⟩
    | cons j js => exact ⟨'[', _, rfl, by decide, by decide⟩
  | obj l =>
    cases l with
    | nil => exact ⟨'{', _, rfl, by decide, by decide⟩
    | cons kv kvs => exact ⟨'{', _, rfl, by decide, by decide⟩

theorem needFuel_pos (j : Json) : 1 ≤ needFuel j := by
  cases j with
  | null => simp [needFuel]
  | bool b => simp [needFuel]
  | num i => simp [needFuel]
  | str s => simp [needFuel]
  | arr l => cases l <;> simp [needFuel]
  | obj l => cases l <;> simp [needFuel]

mutual

theorem needFuel_le (j : Json) : needFuel j ≤ (stringifyVal j).length + 1 := by
  cases j with
  | null => simp [needFuel, stringifyVal]
  | bool b => cases b <;> simp [needFuel, stringifyVal]
  | num i => have := needFuel_pos (Json.num i); simp [needFuel]
  | str s => simp [needFuel, stringifyVal]
  | arr l =>
    cases l with
    | nil => simp [needFuel, stringifyVal]
    | cons j js =>
      have h := needElems_le (j :: js)
      simp only [needFuel, stringifyVal, List.length_cons, List.length_append,
        stringifyElems] at h ⊢
      omega
  | obj l =>
    cases l with
    | nil => simp [needFuel, stringifyVal]
    | cons kv kvs =>
      have h := needMembers_le (kv :: kvs)
      simp only [needFuel, stringifyVal, List.length_cons, List.length_append,
        stringifyMembers] at h ⊢
      omega

theorem needElems_le (js : List Json) :
    needElems js ≤ (stringifyElems js).length + 1 := by
  cases js with
  | nil => simp [needElems, stringifyElems]
  | cons j js =>
    have h1 := needFuel_le j
    have h2 := needElems_le js
    simp only [needElems, stringifyElems, List.length_cons, List.length_append]
    have := Nat.max_le.mpr (And.intro (le_trans h1 (by omega))
      (le_trans h2 (by omega)) :
      needFuel j ≤ (stringifyVal j).length + (stringifyElems js).length + 1 ∧
      needElems js ≤ (stringifyVal j).length + (stringifyElems js).length + 1)
    omega

theorem needMembers_le (kvs : List (String × Json)) :
    needMembers kvs ≤ (stringifyMembers kvs).length + 1 := by
  cases kvs with
  | nil => simp [needMembers, stringifyMembers]
  | cons kv kvs =>
    obtain ⟨k, v⟩ := kv
    have h1 := needFuel_le v
    have h2 := needMembers_le kvs
    simp only [needMembers, stringifyMembers, stringifyMember, List.length_cons,
      List.length_append]
    have := Nat.max_le.mpr (And.intro
      (le_trans h1 (by omega)) (le_trans h2 (by omega)) :
      needFuel v ≤ (escapeChars k.data).length + (2 + (stringifyVal v).length) +
          (stringifyMembers kvs).length + 1 ∧
      needMembers kvs ≤ (escapeChars k.data).length + (2 + (stringifyVal v).length) +
          (stringifyMembers kvs).length + 1)
    omega

end

theorem needElems_cons (j : Json) (js : List Json) :
    needElems (j :: js) = max (needFuel j) (needElems js) + 1 := rfl

theorem needMembers_cons (k : String) (v : Json) (kvs : List (String × Json)) :
    needMembers ((k, v) :: kvs) = max (needFuel v) (needMembers kvs) + 1 := rfl

theorem goodTail_elems (js : List Json) (rest : List Char) :
    goodTail (stringifyElems js ++ ']' :: rest) := by
  intro c t hct
  cases js with
  | nil =>
    simp only [stringifyElems, List.nil_append] at hct
    injection hct with h1 _
    rw [← h1]; decide
  | cons j js =>
    simp only [stringifyElems, List.cons_append] at hct
    injection hct with h1 _
    rw [← h1]; decide

theorem goodTail_members (kvs : List (String × Json)) (rest : List Char) :
    goodTail (stringifyMembers kvs ++ '}' :: rest) := by
  intro c t hct
  cases kvs with
  | nil =>
    simp only [stringifyMembers, List.nil_append] at hct
    injection hct with h1 _
    rw [← h1]; decide
  | cons kv kvs =>
    simp only [stringifyMembers, List.cons_append] at hct
    injection hct with h1 _
    rw [← h1]; decide

theorem parse_stringify_all (fuel : Nat) :
    (∀ j rest, needFuel j ≤ fuel → goodTail rest →
      parseVal fuel (stringifyVal j ++ rest) = some (j, rest)) ∧
    (∀ j js rest, needElems (j :: js) ≤ fuel →
      parseElems fuel (stringifyVal j ++ (stringifyElems js ++ ']' :: rest)) =
        some (j :: js, rest)) ∧
    (∀ k v kvs rest, needMembers ((k, v) :: kvs) ≤ fuel →
      parseMembers fuel (stringifyMember (k, v) ++ (stringifyMembers kvs ++ '}' :: rest)) =
        some ((k, v) :: kvs, rest)) := by
  induction fuel with
  | zero =>
    refine ⟨?_, ?_, ?_⟩
    · intro j rest hf _
      have := needFuel_pos j
      omega
    · intro j js rest hf
      simp [needElems] at hf
    · intro k v kvs rest hf
      simp [needMembers] at hf
  | succ fuel ih =>
    obtain ⟨ihV, ihE, ihM⟩ := ih
    refine ⟨?_, ?_, ?_⟩
    · intro j rest hf hrest
      cases j with
      | null => simp [stringifyVal, parseVal, dropLit]
      | bool b => cases b <;> simp [stringifyVal, parseVal, dropLit]
      | num i =>
        cases i with
        | ofNat n =>
          cases hnc : natChars n with
          | nil => exact absurd hnc (natChars_ne_nil n)
          | cons c t =>
            have hd : isDigitC c = true := natChars_digits n c (by rw [hnc]; simp)
            have htw := takeWhile_all_append isDigitC (natChars n) rest
              (natChars_digits n) hrest
            rw [hnc] at htw
            have hdv : digitsVal (c :: t) = n := by
              rw [← hnc]; exact digitsVal_natChars n
            simp only [stringifyVal, intChars, hnc, List.cons_append]
            rw [parseVal_digit fuel c (t ++ rest) hd]
            simp only [List.cons_append] at htw
            rw [htw.1, htw.2, hdv]
            rfl
        | negSucc n =>
          cases hnc : natChars (n + 1) with
          | nil => exact absurd hnc (natChars_ne_nil (n + 1))
          | cons c t =>
            have htw := takeWhile_all_append isDigitC (natChars (n + 1)) rest
              (natChars_digits (n + 1)) hrest
            have hdv := digitsVal_natChars (n + 1)
            simp only [stringifyVal, intChars, List.cons_append]
            simp only [parseVal]
            rw [htw.1, htw.2, hdv]
            simp only [hnc, List.cons_ne_nil, List.isEmpty_cons]
            simp [Int.negSucc_eq]
      | str s =>
        simp only [stringifyVal, List.cons_append, List.append_assoc,
          List.singleton_append]
        simp only [parseVal]
        rw [parseStrBody_escape]
        simp [mkData]
      | arr l =>
        cases l with
        | nil => simp [stringifyVal, parseVal]
        | cons j js =>
          obtain ⟨c0, t0, h0, hne1, _⟩ := sv_head j
          have hE : needElems (j :: js) ≤ fuel := by
            simp only [needFuel] at hf; omega
          have hrec := ihE j js rest hE
          rw [h0] at hrec
          simp only [List.cons_append, List.append_assoc, List.nil_append] at hrec
          simp only [stringifyVal, List.cons_append, List.append_assoc,
            List.nil_append, List.singleton_append]
          rw [h0]
          simp only [List.cons_append]
          simp [parseVal, hne1, hrec]
      | obj l =>
        cases l with
        | nil => simp [stringifyVal, parseVal]
        | cons kv kvs =>
          obtain ⟨k, v⟩ := kv
          have hM : needMembers ((k, v) :: kvs) ≤ fuel := by
            simp only [needFuel] at hf; omega
          have hrec := ihM k v kvs rest hM
          simp only [stringifyMember, List.cons_append, List.append_assoc,
            List.nil_append, List.singleton_append] at hrec
          simp only [stringifyVal, stringifyMember, List.cons_append,
            List.append_assoc, List.nil_append, List.singleton_append]
          simp [parseVal, hrec]
    · intro j js rest hE
      rw [needElems_cons] at hE
      have hgood := goodTail_elems js rest
      have hfj : needFuel j ≤ fuel := by
        have := Nat.le_max_left (needFuel j) (needElems js)
        omega
      have hv := ihV j (stringifyElems js ++ ']' :: rest) hfj hgood
      simp only [parseElems]
      rw [hv]
      cases js with
      | nil => simp [stringifyElems]
      | cons j2 js2 =>
        have hE2 : needElems (j2 :: js2) ≤ fuel := by
          have := Nat.le_max_right (needFuel j) (needElems (j2 :: js2))
          omega
        have hrec := ihE j2 js2 rest hE2
        simp only [stringifyElems, List.cons_append, List.append_assoc,
          List.nil_append] at hrec ⊢
        simp [hrec]
    · intro k v kvs rest hM
      rw [needMembers_cons] at hM
      have hfv : needFuel v ≤ fuel := by
        have := Nat.le_max_left (needFuel v) (needMembers kvs)
        omega
      have hgood := goodTail_members kvs rest
      have hv := ihV v (stringifyMembers kvs ++ '}' :: rest) hfv hgood
      simp only [stringifyMember, List.cons_append, List.append_assoc,
        List.nil_append, List.singleton_append]
      cases kvs with
      | nil =>
        simp only [stringifyMembers, List.nil_append] at hv ⊢
        simp [parseMembers, parseStrBody_escape, hv, mkData]
      | cons kv2 kvs2 =>
        obtain ⟨k2, v2⟩ := kv2
        have hM2 : needMembers ((k2, v2) :: kvs2) ≤ fuel := by
          have := Nat.le_max_right (needFuel v) (needMembers ((k2, v2) :: kvs2))
          omega
        have hrec := ihM k2 v2 kvs2 rest hM2
        simp only [stringifyMembers, stringifyMember, List.cons_append,
          List.append_assoc, List.nil_append, List.singleton_append] at hrec hv ⊢
        simp [parseMembers, parseStrBody_escape, hv, hrec, mkData]

theorem str_append_ne_empty (a b : String) (ha : a ≠ "") : a ++ b ≠ "" := by
  intro h
  apply ha
  have hd := congrArg String.data h
  rw [String.data_append] at hd
  rcases List.append_eq_nil.mp hd with ⟨h1, _⟩
  exact String.ext h1

/-- `JSON.parse` inverts `JSON.stringify` on every modelled JSON value — the
round trip behind the function-calling family's argument encoding. -/
theorem parseJson_stringJson (j : Json) : parseJson (stringJson j) = some j := by
  have hgood : goodTail [] := by intro c t h; simp at h
  have hle : needFuel j ≤ (stringifyVal j).length + 1 := needFuel_le j
  have h := (parse_stringify_all ((stringifyVal j).length + 1)).1 j [] hle hgood
  rw [List.append_nil] at h
  simp only [parseJson, stringJson, mkData]
  rw [h]

-- ═══════════════════ Claim theorems ═══════════════════

/-- C10: with `maxIterations = 0` the reasoning loop body never executes —
no tool is ever called, exactly one LLM call (the summarization call) is
issued, the returned iteration count is 0, and the step trace is exactly one
error (limit) step. -/
theorem C10_zero_iterations (u : String) (h : List ChatMessage)
    (llm : Nat → Except String LlmResponse)
    (tool : Nat → Except String McpCallResult) (ab : Nat → Bool) :
    (runAgent u h ⟨0, llm, tool, ab⟩).result.iterations = 0 ∧
    (runAgent u h ⟨0, llm, tool, ab⟩).result.steps.map (fun s => s.type) =
      [.error] ∧
    (runAgent u h ⟨0, llm, tool, ab⟩).llmCallCount = 1 ∧
    (runAgent u h ⟨0, llm, tool, ab⟩).toolExecCount = 0 := by
  rcases hl : llm 0 with e | r <;>
    simp [runAgent, loopAux, limitOutcome, hl]

/-- C5: the claim says the Provider Adapter folds the supplied wallet
context into the transmitted system instructions; in the code the formatted
request is independent of the wallet context (JavaScript drops `callLlm`'s
third argument) and the system message is always the constant
`SYSTEM_PROMPT`. -/
theorem C5_wallet_context_ignored (conv : List ChatMessage)
    (wc wc' : Option WalletContext) :
    agentLlmMessages conv wc = agentLlmMessages conv wc' ∧
    (agentLlmMessages conv wc).head? = some ⟨"system", some SYSTEM_PROMPT, none, none⟩ :=
  ⟨rfl, rfl⟩

/-- C4 counterexample: a run whose only LLM response has no tool calls and
empty text terminates on the answer path with an *empty* answer string —
refuting "every terminal path yields a non-empty answer string". -/
theorem C4_cex_empty_answer :
    (runAgent "hi" []
      ⟨10, fun _ => .ok ⟨"", none⟩, fun _ => .ok ⟨[], none⟩, fun _ => false⟩).result.answer
      = "" ∧
    (runAgent "hi" []
      ⟨10, fun _ => .ok ⟨"", none⟩, fun _ => .ok ⟨[], none⟩, fun _ => false⟩).result.steps.map
        (fun s => s.type) = [.thinking, .answer] := by
  constructor <;> rfl

/-- C7: evaluating the code at the failing input — a client with one live
channel, an established session and one in-flight request, on which
`connect()` is called again: the new `EventSource` is created without
closing the previous one, so two channels (with their listeners) are live,
and the pending request entry is carried over. -/
theorem C7_reconnect_leaks :
    liveChannels (mcpConnectOpen ⟨some "abc", true, [], 1, [1], true, 0⟩) = 2 ∧
    (mcpConnectOpen ⟨some "abc", true, [], 1, [1], true, 0⟩).pending = [1] ∧
    (mcpConnectOpen ⟨some "abc", true, [], 1, [1], true, 0⟩).requestId = 1 := by
  refine ⟨rfl, rfl, rfl⟩

/-- C6 counterexample: `disconnect()` does not clear the request-id counter —
after one request (counter at 1) and a disconnect, the counter still reads
1, not its initial 0. -/
theorem C6_cex_counter_not_cleared :
    (mcpDisconnect ⟨some "sid", true, [], 1, [1], true, 0⟩).requestId ≠ 0 := by
  simp [mcpDisconnect]

theorem no_settlement_of_not_pending (i : Nat) (es : List McpEvent) :
    ∀ s : McpClientState, i ∉ s.pending → i ≤ s.requestId →
      i ∉ (traceSettlements s es).map Prod.fst := by
  induction es with
  | nil => intro s _ _; simp [traceSettlements]
  | cons e es ih =>
    intro s hp hr
    cases e with
    | send =>
      simp only [traceSettlements, mcpStep, List.nil_append]
      exact ih _ (by
        intro hmem
        rcases List.mem_append.mp hmem with hmem | hmem
        · exact hp hmem
        · simp at hmem; omega) (by simp; omega)
    | recv oid isErr =>
      cases oid with
      | none => simpa [traceSettlements, mcpStep] using ih s hp hr
      | some m =>
        by_cases hm : m ∈ s.pending
        · simp only [traceSettlements, mcpStep, if_pos hm, List.cons_append,
            List.nil_append, List.map_cons, List.mem_cons]
          push_neg
          constructor
          · intro him; exact hp (him ▸ hm)
          · exact ih _ (fun hmem => hp (List.mem_of_mem_erase hmem)) hr
        · simpa [traceSettlements, mcpStep, hm] using ih s hp hr
    | disconnect =>
      simp only [traceSettlements, mcpStep, List.nil_append]
      exact ih _ (by simp [mcpDisconnect]) (by simp [mcpDisconnect]; omega)
    | connectOpen =>
      simp only [traceSettlements, mcpStep, List.nil_append]
      exact ih _ (by simpa [mcpConnectOpen] using hp) (by simp [mcpConnectOpen]; omega)

/-- C6 amended: `disconnect()` closes the channel, nulls the session id,
clears the connected flag, the tool cache and the pending map — but leaves
the request-id counter at its value — and every request still in flight at
disconnect is orphaned: no later event sequence ever settles (resolves or
rejects) its id, provided the client's basic id invariant (every pending id
was issued by the counter) held. -/
theorem C6_disconnect_orphans (s : McpClientState) :
    (mcpDisconnect s).current = false ∧
    (mcpDisconnect s).sessionId = none ∧
    (mcpDisconnect s).connected = false ∧
    (mcpDisconnect s).tools = [] ∧
    (mcpDisconnect s).pending = [] ∧
    (mcpDisconnect s).requestId = s.requestId ∧
    ∀ i ∈ s.pending, i ≤ s.requestId →
      ∀ es : List McpEvent,
        i ∉ (traceSettlements (mcpDisconnect s) es).map Prod.fst := by
  refine ⟨rfl, rfl, rfl, rfl, rfl, rfl, ?_⟩
  intro i _ hle es
  exact no_settlement_of_not_pending i es (mcpDisconnect s)
    (by simp [mcpDisconnect]) (by simp [mcpDisconnect]; omega)

/-- C6 witness: the amended theorem applied to a client holding one
in-flight request (id 1, counter 1); after disconnect, a response for id 1
arriving on the channel settles nothing. -/
theorem C6_disconnect_orphans_witness :
    (mcpDisconnect ⟨some "sid", true, [], 1, [1], true, 0⟩).requestId = 1 ∧
    1 ∉ (traceSettlements (mcpDisconnect ⟨some "sid", true, [], 1, [1], true, 0⟩)
          [.recv (some 1) false, .send, .recv (some 1) true]).map Prod.fst :=
  ⟨(C6_disconnect_orphans ⟨some "sid", true, [], 1, [1], true, 0⟩).2.2.2.2.2.1,
   (C6_disconnect_orphans ⟨some "sid", true, [], 1, [1], true, 0⟩).2.2.2.2.2.2
     1 (by simp) (by decide) [.recv (some 1) false, .send, .recv (some 1) true]⟩

/-- C1: the single-tool scenario — the first LLM call returns exactly one
tool call, the stub executor returns a result, the second LLM call returns
no tool calls and text "Balance is 100"; the run returns that answer,
iteration count 2, and the step kinds
`[thinking, tool_call, tool_result, thinking, answer]` (for any iteration
budget of at least 2). -/
theorem C1_single_tool_scenario (c0 u : String) (tc : ToolCall)
    (res : McpCallResult) (M : Nat) (hist : List ChatMessage) :
    (runAgent u hist ⟨M + 2,
        fun k => if k = 0 then .ok ⟨c0, some [tc]⟩ else .ok ⟨"Balance is 100", none⟩,
        fun _ => .ok res, fun _ => false⟩).result.answer = "Balance is 100" ∧
    (runAgent u hist ⟨M + 2,
        fun k => if k = 0 then .ok ⟨c0, some [tc]⟩ else .ok ⟨"Balance is 100", none⟩,
        fun _ => .ok res, fun _ => false⟩).result.iterations = 2 ∧
    (runAgent u hist ⟨M + 2,
        fun k => if k = 0 then .ok ⟨c0, some [tc]⟩ else .ok ⟨"Balance is 100", none⟩,
        fun _ => .ok res, fun _ => false⟩).result.steps.map (fun s => s.type) =
      [.thinking, .tool_call, .tool_result, .thinking, .answer] := by
  by_cases hc : c0 = "" <;>
    simp [runAgent, loopAux, answerOutcome, execToolCallsList, buildToolMessages,
      jsOr, hc]

/-- C3: whenever the loop reaches the iteration cap (fuel exhausted without
a terminal return), it appends exactly one dedicated limit error step and
one synthetic summary-request user message, issues exactly one further LLM
call and executes no further tool (`toolExecCount` unchanged); if that final
call throws, the answer is the fixed apology.  The scenario part instantiates
`maxIterations = 1` with a first response carrying one tool call: after
executing it the run enters the limit path directly — two LLM calls in
total, one tool execution, and no second reasoning iteration (exactly one
thinking step in the whole trace). -/
theorem C3_limit_path (A : AgentArgs) (st : LoopState) (c0 u : String)
    (tc : ToolCall) (res : McpCallResult) (finalResp : Except String LlmResponse)
    (hist : List ChatMessage) :
    ((loopAux A 0 st).llmCallCount = st.llmIdx + 1 ∧
     (loopAux A 0 st).toolExecCount = st.toolIdx ∧
     (loopAux A 0 st).result.steps = st.steps ++
       [{ type := .error,
          content := some ("Reached maximum iterations (" ++ toString A.maxIterations
            ++ "). Providing best answer so far."),
          iteration := st.iteration }] ∧
     (loopAux A 0 st).finalConversation = st.conversation ++
       [{ role := .user,
          content := "Please summarize the information gathered so far and provide a final answer." }] ∧
     (loopAux A 0 st).result.answer =
       (match A.llm st.llmIdx with
        | .ok r => jsOr r.content "I ran out of iterations. Here's what I found so far."
        | .error _ =>
          "I reached the maximum number of reasoning steps. Please try again with a simpler query.")) ∧
    ((runAgent u hist ⟨1,
        fun k => if k = 0 then .ok ⟨c0, some [tc]⟩ else finalResp,
        fun _ => .ok res, fun _ => false⟩).llmCallCount = 2 ∧
     (runAgent u hist ⟨1,
        fun k => if k = 0 then .ok ⟨c0, some [tc]⟩ else finalResp,
        fun _ => .ok res, fun _ => false⟩).toolExecCount = 1 ∧
     (runAgent u hist ⟨1,
        fun k => if k = 0 then .ok ⟨c0, some [tc]⟩ else finalResp,
        fun _ => .ok res, fun _ => false⟩).result.iterations = 1 ∧
     (runAgent u hist ⟨1,
        fun k => if k = 0 then .ok ⟨c0, some [tc]⟩ else finalResp,
        fun _ => .ok res, fun _ => false⟩).result.steps.map (fun s => s.type) =
       [.thinking, .tool_call, .tool_result, .error]) := by
  constructor
  · rcases hl : A.llm st.llmIdx with e | r <;>
      simp [loopAux, limitOutcome, hl]
  · by_cases hc : c0 = "" <;> rcases hf : finalResp with e | r <;>
      simp [runAgent, loopAux, limitOutcome, execToolCallsList, buildToolMessages,
        jsOr, hc, hf]

theorem getLast?_append_pair {α : Type} (l : List α) (a b : α) :
    (l ++ [a, b]).getLast? = some b := by
  rw [show l ++ [a, b] = (l ++ [a]) ++ [b] by simp]
  exact List.getLast?_concat _

theorem loopAux_last (A : AgentArgs) (fuel : Nat) :
    ∀ st : LoopState,
      ∃ s, (loopAux A fuel st).result.steps.getLast? = some s ∧
        (s.type = .answer ∨ s.type = .error) ∧
        (s.type = .error → (loopAux A fuel st).result.answer ≠ "") ∧
        (s.type = .answer → s.content = some ((loopAux A fuel st).result.answer)) := by
  induction fuel with
  | zero =>
    intro st
    rcases hl : A.llm st.llmIdx with e | r
    · simp only [loopAux, limitOutcome, hl]
      exact ⟨_, List.getLast?_concat _, Or.inr rfl, fun _ => by decide,
        fun hco => by simp at hco⟩
    · simp only [loopAux, limitOutcome, hl]
      refine ⟨_, List.getLast?_concat _, Or.inr rfl, fun _ => ?_,
        fun hco => by simp at hco⟩
      by_cases hr : r.content = "" <;> simp [jsOr, hr]
  | succ fuel ih =>
    intro st
    by_cases hab : A.abortedAt st.iteration = true
    · simp only [loopAux, hab, if_true, cancelOutcome]
      exact ⟨_, List.getLast?_concat _, Or.inr rfl, fun _ => by decide,
        fun hco => by simp at hco⟩
    · rcases hl : A.llm st.llmIdx with e | r
      · simp only [loopAux, hab, Bool.false_eq_true, if_false, hl, llmFailOutcome]
        refine
          ⟨{ type := .error, content := some ("LLM call failed: " ++ e),
             iteration := st.iteration }, ?_, Or.inr rfl, fun _ => ?_,
           fun hco => by simp at hco⟩
        · exact getLast?_append_pair _ _ _
        · exact str_append_ne_empty _ e (by decide)
      · by_cases hemp : (r.toolCalls.getD []).isEmpty = true
        · simp only [loopAux, hab, Bool.false_eq_true, if_false, hl, hemp, if_true,
            answerOutcome]
          refine
            ⟨{ type := .answer, content := some r.content,
               iteration := st.iteration }, ?_, Or.inl rfl,
             fun hco => by simp at hco, fun _ => rfl⟩
          exact getLast?_append_pair _ _ _
        · simp only [loopAux, hab, Bool.false_eq_true, if_false, hl, hemp]
          exact ih _

/-- C4 amended: on every terminal path the step trace is non-empty and ends
in a terminal step (answer or error); on every error-terminated path the
answer string is non-empty, while on the answer path the answer is exactly
the final step's content — the LLM's text verbatim, which may be empty. -/
theorem C4_terminal_paths (u : String) (h : List ChatMessage) (A : AgentArgs) :
    ∃ s, (runAgent u h A).result.steps.getLast? = some s ∧
      (s.type = .answer ∨ s.type = .error) ∧
      (s.type = .error → (runAgent u h A).result.answer ≠ "") ∧
      (s.type = .answer → s.content = some ((runAgent u h A).result.answer)) :=
  loopAux_last A A.maxIterations _

theorem execTool_error_mem (toolO : Nat → Except String McpCallResult)
    (iter : Nat) (tcs : List ToolCall) :
    ∀ (start k : Nat) (e : String),
      start ≤ k → k < start + tcs.length → toolO k = .error e →
      (∃ s ∈ (execToolCallsList toolO start iter tcs).1,
          s.type = .tool_result ∧ s.toolResult = some ⟨[⟨"text", e⟩], some true⟩) ∧
      (∃ tr ∈ (execToolCallsList toolO start iter tcs).2, tr.error = some e) := by
  induction tcs with
  | nil =>
    intro start k e h1 h2 _
    simp at h2
    omega
  | cons tc rest ih =>
    intro start k e h1 h2 he
    by_cases hk : k = start
    · subst hk
      rcases hexec : execToolCallsList toolO (k + 1) iter rest with ⟨ts, rs⟩
      simp only [execToolCallsList, he, hexec]
      constructor
      · refine
          ⟨{ type := .tool_result, toolResult := some ⟨[⟨"text", e⟩], some true⟩,
             toolName := some tc.name, iteration := iter }, by simp, rfl, rfl⟩
      · exact ⟨⟨tc.id, tc.name, ⟨[⟨"text", e⟩], some true⟩, some e⟩, by simp, rfl⟩
    · have hrec := ih (start + 1) k e (by omega) (by simp at h2 ⊢; omega) he
      rcases hexec : execToolCallsList toolO (start + 1) iter rest with ⟨ts, rs⟩
      rw [hexec] at hrec
      obtain ⟨⟨s, hs, hs1, hs2⟩, ⟨tr, htr, htr1⟩⟩ := hrec
      rcases ho : toolO start with e' | r <;>
        simp only [execToolCallsList, ho, hexec] <;>
        exact ⟨⟨s, by simp [hs], hs1, hs2⟩, ⟨tr, by simp [htr], htr1⟩⟩

theorem buildToolMessages_error_mem (tcs : List ToolCall)
    (trs : List ToolResultRec) (tr : ToolResultRec) (htr : tr ∈ trs) (e : String)
    (he : tr.error = some e) :
    ∃ m ∈ buildToolMessages tcs trs, m.role = .tool ∧ m.content = "Error: " ++ e := by
  refine ⟨_, List.mem_map_of_mem _ htr, rfl, ?_⟩
  simp only [he]

theorem loopAux_mono (A : AgentArgs) (fuel : Nat) :
    ∀ st : LoopState,
      (∀ x ∈ st.steps, x ∈ (loopAux A fuel st).result.steps) ∧
      (∀ m ∈ st.conversation, m ∈ (loopAux A fuel st).finalConversation) := by
  induction fuel with
  | zero =>
    intro st
    rcases hl : A.llm st.llmIdx with e | r <;>
      constructor <;> intro x hx <;> simp [loopAux, limitOutcome, hl, hx]
  | succ fuel ih =>
    intro st
    by_cases hab : A.abortedAt st.iteration = true
    · constructor <;> intro x hx <;> simp [loopAux, hab, cancelOutcome, hx]
    · rcases hl : A.llm st.llmIdx with e | r
      · constructor <;> intro x hx <;>
          simp [loopAux, hab, hl, llmFailOutcome, hx]
      · by_cases hemp : (r.toolCalls.getD []).isEmpty = true
        · constructor <;> intro x hx <;>
            simp [loopAux, hab, hl, hemp, answerOutcome, hx]
        · rcases hexec : execToolCallsList A.tool st.toolIdx st.iteration
            (r.toolCalls.getD []) with ⟨ts, rs⟩
          simp only [loopAux, hab, Bool.false_eq_true, if_false, hl, hemp, hexec]
          refine ⟨fun x hx => (ih _).1 x (by simp [hx]), fun m hm => (ih _).2 m ?_⟩
          by_cases hc : r.content = "" <;> simp [hc, hm]

theorem loopAux_tool_error (A : AgentArgs) (fuel : Nat) :
    ∀ (st : LoopState) (k : Nat) (e : String),
      st.toolIdx ≤ k → k < (loopAux A fuel st).toolExecCount →
      A.tool k = .error e →
      (∃ s ∈ (loopAux A fuel st).result.steps, s.type = .tool_result ∧
          s.toolResult = some ⟨[⟨"text", e⟩], some true⟩) ∧
      (∃ m ∈ (loopAux A fuel st).finalConversation, m.role = .tool ∧
          m.content = "Error: " ++ e) := by
  induction fuel with
  | zero =>
    intro st k e h1 h2 _
    rcases hl : A.llm st.llmIdx with e' | r <;>
      rw [show (loopAux A 0 st).toolExecCount = st.toolIdx by
        simp [loopAux, limitOutcome, hl]] at h2 <;> omega
  | succ fuel ih =>
    intro st k e h1 h2 he
    by_cases hab : A.abortedAt st.iteration = true
    · rw [show (loopAux A (fuel + 1) st).toolExecCount = st.toolIdx by
        simp [loopAux, hab, cancelOutcome]] at h2
      omega
    · rcases hl : A.llm st.llmIdx with e' | r
      · rw [show (loopAux A (fuel + 1) st).toolExecCount = st.toolIdx by
          simp [loopAux, hab, hl, llmFailOutcome]] at h2
        omega
      · by_cases hemp : (r.toolCalls.getD []).isEmpty = true
        · rw [show (loopAux A (fuel + 1) st).toolExecCount = st.toolIdx by
            simp [loopAux, hab, hl, hemp, answerOutcome]] at h2
          omega
        · rcases hexec : execToolCallsList A.tool st.toolIdx st.iteration
            (r.toolCalls.getD []) with ⟨ts, rs⟩
          simp only [loopAux, hab, Bool.false_eq_true, if_false, hl, hemp,
            hexec] at h2 ⊢
          by_cases hk : k < st.toolIdx + (r.toolCalls.getD []).length
          · have hmem := execTool_error_mem A.tool st.iteration
              (r.toolCalls.getD []) st.toolIdx k e h1 hk he
            rw [hexec] at hmem
            obtain ⟨⟨s, hs, hs1, hs2⟩, ⟨tr, htr, htr1⟩⟩ := hmem
            obtain ⟨m, hm, hm1, hm2⟩ :=
              buildToolMessages_error_mem (r.toolCalls.getD []) rs tr htr e htr1
            constructor
            · exact ⟨s, (loopAux_mono A fuel _).1 s (by simp [hs]), hs1, hs2⟩
            · refine ⟨m, (loopAux_mono A fuel _).2 m ?_, hm1, hm2⟩
              by_cases hc : r.content = "" <;> simp [hc, hm]
          · exact ih _ k e (by simp; omega) h2 he

/-- C2: for every run of `runAgent` and every tool call the run executes
whose execution throws (`A.tool k = .error e`), the trace contains a
`tool_result` step whose payload has `isError := true` and whose content is
exactly the thrown message, and the conversation gains a tool-role message
whose content is the non-empty string `"Error: " ++ e` — the exception never
escapes the loop (the run still returns a `RunOutcome`). -/
theorem C2_tool_error_captured (u : String) (h : List ChatMessage)
    (A : AgentArgs) (k : Nat) (e : String) (he : A.tool k = .error e)
    (hk : k < (runAgent u h A).toolExecCount) :
    (∃ s ∈ (runAgent u h A).result.steps, s.type = .tool_result ∧
        s.toolResult = some ⟨[⟨"text", e⟩], some true⟩) ∧
    (∃ m ∈ (runAgent u h A).finalConversation, m.role = .tool ∧
        m.content = "Error: " ++ e ∧ m.content ≠ "") := by
  simp only [runAgent] at hk ⊢
  obtain ⟨hstep, ⟨m, hm, hm1, hm2⟩⟩ :=
    loopAux_tool_error A A.maxIterations _ k e (Nat.zero_le k) hk he
  exact ⟨hstep, ⟨m, hm, hm1, hm2, by
    rw [hm2]; exact str_append_ne_empty "Error: " e (by decide)⟩⟩

/-- C2 witness: a concrete two-iteration run whose single tool call throws
"network down" — the trace records the error-flagged tool result and the
conversation carries the literal error text. -/
theorem C2_tool_error_captured_witness :
    (∃ s ∈ (runAgent "q" [] ⟨2,
        fun j => if j = 0
          then .ok ⟨"", some [⟨"1", "get_account_info", Json.obj []⟩]⟩
          else .ok ⟨"done", none⟩,
        fun _ => .error "network down", fun _ => false⟩).result.steps,
        s.type = .tool_result ∧
        s.toolResult = some ⟨[⟨"text", "network down"⟩], some true⟩) ∧
    (∃ m ∈ (runAgent "q" [] ⟨2,
        fun j => if j = 0
          then .ok ⟨"", some [⟨"1", "get_account_info", Json.obj []⟩]⟩
          else .ok ⟨"done", none⟩,
        fun _ => .error "network down", fun _ => false⟩).finalConversation,
        m.role = .tool ∧ m.content = "Error: " ++ "network down" ∧
        m.content ≠ "") :=
  C2_tool_error_captured "q" []
    ⟨2, fun j => if j = 0
        then .ok ⟨"", some [⟨"1", "get_account_info", Json.obj []⟩]⟩
        else .ok ⟨"done", none⟩,
      fun _ => .error "network down", fun _ => false⟩
    0 "network down" rfl (by decide)

theorem mapM_parse_serialize (tcs : List ToolCall) :
    (tcs.map serializeOAICall).mapM (fun w =>
      (parseJson w.fargs).map (fun a => (⟨w.id, w.fname, a⟩ : ToolCall))) =
      some tcs := by
  induction tcs with
  | nil => rfl
  | cons tc rest ih =>
    simp only [List.map_cons, List.mapM_cons, serializeOAICall,
      parseJson_stringJson, Option.map_some', ih]
    rfl

theorem parseOAI_mk (text : Option String) (tcs : List ToolCall)
    (hne : tcs ≠ []) :
    parseOpenAIResponse (mkOAIResponse text (tcs.map serializeOAICall)) =
      some ⟨jsOrOpt text "", some tcs⟩ := by
  cases tcs with
  | nil => exact absurd rfl hne
  | cons tc rest =>
    have hmapm := mapM_parse_serialize (tc :: rest)
    simp only [List.map_cons, List.mapM] at hmapm
    simp [mkOAIResponse, parseOpenAIResponse, List.mapM, hmapm]

theorem formatOAI_mem (msgs : List ChatMessage) (m : ChatMessage)
    (tcs : List ToolCall) (hm : m ∈ msgs) (hr : m.role = .assistant)
    (htc : m.toolCalls = some tcs) (hne : tcs ≠ []) :
    ∃ fm ∈ formatMessagesOpenAI msgs,
      fm.tool_calls = some (tcs.map serializeOAICall) := by
  have hempty : tcs.isEmpty = false := by
    cases tcs with
    | nil => exact absurd rfl hne
    | cons a l => rfl
  refine ⟨_, List.mem_cons_of_mem _ (List.mem_map_of_mem _ hm), ?_⟩
  simp [hr, htc, hempty]

theorem formatGemini_mem (msgs : List ChatMessage) (m : ChatMessage)
    (tcs : List ToolCall) (hm : m ∈ msgs) (hr : m.role = .assistant)
    (htc : m.toolCalls = some tcs) (hne : tcs ≠ []) :
    ∃ gm ∈ formatGeminiContents msgs, gm.parts =
      (if m.content = "" then [] else [.text m.content]) ++
      tcs.map (fun tc => GOutPart.functionCall tc.name tc.arguments) := by
  have hempty : tcs.isEmpty = false := by
    cases tcs with
    | nil => exact absurd rfl hne
    | cons a l => rfl
  have hrs : ¬(m.role = .system) := by rw [hr]; decide
  refine ⟨⟨"model", (if m.content = "" then [] else [.text m.content]) ++
      tcs.map (fun tc => GOutPart.functionCall tc.name tc.arguments)⟩,
    List.mem_filterMap.mpr ⟨m, hm, ?_⟩, rfl⟩
  simp [hrs, hr, htc, hempty]

theorem gemini_fold_some (now : Nat) (tcs : List ToolCall) :
    ∀ (c : String) (acc : List ToolCall),
      (∀ tc ∈ tcs, jsTruthy tc.arguments = true) →
      ∃ out, List.foldl (geminiStep now) (c, some acc)
          (tcs.map (fun tc => (⟨none, some ⟨tc.name, some tc.arguments⟩⟩ : GPart))) =
          (c, some out) ∧
        out.map (fun t => (t.name, t.arguments)) =
          acc.map (fun t => (t.name, t.arguments)) ++
          tcs.map (fun t => (t.name, t.arguments)) := by
  induction tcs with
  | nil => intro c acc _; exact ⟨acc, rfl, by simp⟩
  | cons tc rest ih =>
    intro c acc htr
    have htc := htr tc (by simp)
    obtain ⟨out, hfold, hpairs⟩ :=
      ih c (acc ++ [⟨geminiId now acc.length, tc.name, tc.arguments⟩])
        (fun x hx => htr x (by simp [hx]))
    refine ⟨out, ?_, ?_⟩
    · simp only [List.map_cons, List.foldl_cons, geminiStep, Option.getD_none,
        jsOr, htc]
      simpa using hfold
    · rw [hpairs]
      simp

theorem filterMap_some_map {α β : Type} (f : α → β) (l : List α) :
    l.filterMap (fun x => some (f x)) = l.map f := by
  induction l with
  | nil => rfl
  | cons a l ih => simp [List.filterMap_cons, ih]

theorem parseGemini_pairs (now : Nat) (content : String) (tcs : List ToolCall)
    (hne : tcs ≠ []) (hobj : ∀ tc ∈ tcs, jsTruthy tc.arguments = true) :
    ((parseGeminiResponse now (mkGeminiResponse
        ((if content = "" then [] else [.text content]) ++
         tcs.map (fun tc => GOutPart.functionCall tc.name tc.arguments)))).toolCalls.getD
        []).map (fun t => (t.name, t.arguments)) =
      tcs.map (fun t => (t.name, t.arguments)) := by
  cases tcs with
  | nil => exact absurd rfl hne
  | cons tc rest =>
    have htc := hobj tc (by simp)
    by_cases hc : content = ""
    · obtain ⟨out, hfold, hpairs⟩ :=
        gemini_fold_some now rest ""
          [⟨geminiId now 0, tc.name, tc.arguments⟩]
          (fun x hx => hobj x (by simp [hx]))
      simp only [hc, if_true, if_pos rfl, List.nil_append, List.map_cons,
        parseGeminiResponse, mkGeminiResponse, List.filterMap_cons,
        List.filterMap_map, Function.comp_def, List.head?]
      rw [filterMap_some_map]
      simp only [List.foldl_cons]
      rw [show geminiStep now ("", none)
          (⟨none, some ⟨tc.name, some tc.arguments⟩⟩ : GPart) =
          ("", some [⟨geminiId now 0, tc.name, tc.arguments⟩]) from by
        simp [geminiStep, jsOr, htc]]
      rw [hfold]
      simp [hpairs]
    · obtain ⟨out, hfold, hpairs⟩ :=
        gemini_fold_some now rest ("" ++ content)
          [⟨geminiId now 0, tc.name, tc.arguments⟩]
          (fun x hx => hobj x (by simp [hx]))
      simp only [if_neg hc, List.singleton_append, List.map_cons,
        parseGeminiResponse, mkGeminiResponse, List.filterMap_cons,
        List.filterMap_map, Function.comp_def, List.head?]
      rw [filterMap_some_map]
      simp only [List.foldl_cons]
      rw [show geminiStep now ("", none) ⟨some content, none⟩ =
          ("" ++ content, none) from by simp [geminiStep, jsOr, hc]]
      rw [show geminiStep now ("" ++ content, none)
          (⟨none, some ⟨tc.name, some tc.arguments⟩⟩ : GPart) =
          ("" ++ content, some [⟨geminiId now 0, tc.name, tc.arguments⟩]) from by
        simp [geminiStep, jsOr, htc]]
      rw [hfold]
      simp [hpairs]

/-- C8: serializing a conversation's assistant tool calls through the
OpenAI-family formatter and parsing a synthetic vendor response that echoes
those wire tool calls reproduces the tool calls exactly (ids included, the
`JSON.stringify` of each argument record inverted by `JSON.parse`); the
candidate/parts (Gemini) formatter composed with its parser reproduces the
same ordered list — hence multiset — of `(name, arguments)` pairs, with
locally synthesized ids. -/
theorem C8_adapter_roundtrip (msgs : List ChatMessage) (m : ChatMessage)
    (tcs : List ToolCall) (text : Option String) (now : Nat)
    (hm : m ∈ msgs) (hr : m.role = .assistant) (htc : m.toolCalls = some tcs)
    (hne : tcs ≠ []) (hobj : ∀ tc ∈ tcs, jsTruthy tc.arguments = true) :
    (∃ fm ∈ formatMessagesOpenAI msgs,
        fm.tool_calls = some (tcs.map serializeOAICall)) ∧
    parseOpenAIResponse (mkOAIResponse text (tcs.map serializeOAICall)) =
      some ⟨jsOrOpt text "", some tcs⟩ ∧
    (∃ gm ∈ formatGeminiContents msgs,
        ((parseGeminiResponse now (mkGeminiResponse gm.parts)).toolCalls.getD
            []).map (fun t => (t.name, t.arguments)) =
          tcs.map (fun t => (t.name, t.arguments))) := by
  refine ⟨formatOAI_mem msgs m tcs hm hr htc hne,
    parseOAI_mk text tcs hne, ?_⟩
  obtain ⟨gm, hgm, hparts⟩ := formatGemini_mem msgs m tcs hm hr htc hne
  refine ⟨gm, hgm, ?_⟩
  rw [hparts]
  exact parseGemini_pairs now m.content tcs hne hobj

/-- C8 witness: a one-message conversation whose assistant requested
`get_account_info` with a string-and-number argument record; both adapter
round trips reproduce it. -/
theorem C8_adapter_roundtrip_witness :
    (∃ fm ∈ formatMessagesOpenAI [exampleAssistantMsg],
        fm.tool_calls = some ([exampleCall].map serializeOAICall)) ∧
    parseOpenAIResponse (mkOAIResponse (some "ok")
        ([exampleCall].map serializeOAICall)) =
      some ⟨jsOrOpt (some "ok") "", some [exampleCall]⟩ ∧
    (∃ gm ∈ formatGeminiContents [exampleAssistantMsg],
        ((parseGeminiResponse 0 (mkGeminiResponse gm.parts)).toolCalls.getD
            []).map (fun t => (t.name, t.arguments)) =
          [exampleCall].map (fun t => (t.name, t.arguments))) :=
  C8_adapter_roundtrip [exampleAssistantMsg] exampleAssistantMsg [exampleCall]
    (some "ok") 0 (List.mem_singleton.mpr rfl) rfl rfl (List.cons_ne_nil _ _)
    (by intro tc htcm; rw [List.mem_singleton] at htcm; subst htcm; rfl)

theorem natChars_inj (a b : Nat) (h : natChars a = natChars b) : a = b := by
  have := digitsVal_natChars a
  rw [h, digitsVal_natChars b] at this
  omega

theorem geminiId_data (now idx : Nat) :
    (geminiId now idx).data = "gemini_tc_".data ++ (natChars now ++ '_' :: natChars idx) := by
  simp [geminiId, List.append_assoc]

theorem geminiId_inj_idx (now i j : Nat) (h : geminiId now i = geminiId now j) :
    i = j := by
  have hd := congrArg String.data h
  rw [geminiId_data, geminiId_data] at hd
  have h2 := List.append_cancel_left hd
  have h3 := List.append_cancel_left h2
  exact natChars_inj i j (by injection h3)

theorem geminiId_inj_now (now now' i j : Nat) (hne : now ≠ now') :
    geminiId now i ≠ geminiId now' j := by
  intro h
  have hd := congrArg String.data h
  rw [geminiId_data, geminiId_data] at hd
  have h2 := List.append_cancel_left hd
  have htw1 := takeWhile_all_append isDigitC (natChars now) ('_' :: natChars i)
    (natChars_digits now) (by intro c t hct; injection hct with h1 _; rw [← h1]; decide)
  have htw2 := takeWhile_all_append isDigitC (natChars now') ('_' :: natChars j)
    (natChars_digits now') (by intro c t hct; injection hct with h1 _; rw [← h1]; decide)
  apply hne
  apply natChars_inj
  rw [← htw1.1, ← htw2.1, h2]

theorem gemini_fold_ids (now : Nat) (parts : List GPart) :
    ∀ (c : String) (acc : Option (List ToolCall)),
      (∀ i tc, (acc.getD []).get? i = some tc → tc.id = geminiId now i) →
      ∀ i tc,
        (((List.foldl (geminiStep now) (c, acc) parts).2).getD []).get? i = some tc →
        tc.id = geminiId now i := by
  induction parts with
  | nil => intro c acc hacc; exact hacc
  | cons p ps ih =>
    intro c acc hacc
    by_cases ht : jsOr (p.text.getD "") "" ≠ ""
    · have hstep : geminiStep now (c, acc) p = (c ++ p.text.getD "", acc) := by
        simp only [geminiStep, if_pos ht]
      rw [List.foldl_cons, hstep]
      exact ih _ acc hacc
    · rcases hfc : p.functionCall with _ | fc
      · have hstep : geminiStep now (c, acc) p = (c, acc) := by
          simp only [geminiStep, if_neg ht, hfc]
        rw [List.foldl_cons, hstep]
        exact ih _ acc hacc
      · have hstep : geminiStep now (c, acc) p =
            (c, some (acc.getD [] ++
              [⟨geminiId now (acc.getD []).length, fc.name,
                match fc.args with
                | some v => if jsTruthy v = true then v else Json.obj []
                | none => Json.obj []⟩])) := by
          simp only [geminiStep, if_neg ht, hfc]
        rw [List.foldl_cons, hstep]
        apply ih
        intro i tc h
        simp only [Option.getD_some] at h
        rcases Nat.lt_trichotomy i (acc.getD []).length with hlt | heq | hgt
        · rw [List.get?_append hlt] at h
          exact hacc i tc h
        · subst heq
          rw [List.get?_concat_length] at h
          injection h with h
          rw [← h]
        · rw [List.get?_eq_none.mpr (by simp; omega)] at h
          exact absurd h (by simp)

/-- C9 amended: every tool-call id the Gemini parser synthesizes is
`geminiId now index` for its running index; within one response the ids are
pairwise distinct (the indices differ), and ids synthesized at different
wall-clock milliseconds never collide — so ids from two turns are distinct
exactly when their `Date.now()` values differ, and collide when two turns
share a millisecond and an index. -/
theorem C9_gemini_ids (now now' : Nat) (r : GeminiResponse) :
    (∀ i tc, ((parseGeminiResponse now r).toolCalls.getD []).get? i = some tc →
      tc.id = geminiId now i) ∧
    (∀ i j tci tcj,
      ((parseGeminiResponse now r).toolCalls.getD []).get? i = some tci →
      ((parseGeminiResponse now r).toolCalls.getD []).get? j = some tcj →
      i ≠ j → tci.id ≠ tcj.id) ∧
    (now ≠ now' → ∀ i j, geminiId now i ≠ geminiId now' j) := by
  have hchar : ∀ i tc,
      ((parseGeminiResponse now r).toolCalls.getD []).get? i = some tc →
      tc.id = geminiId now i := by
    rcases hc : r.candidates with _ | ⟨cand, rest⟩
    · intro i tc h
      simp [parseGeminiResponse, hc] at h
    · have hl : (parseGeminiResponse now r).toolCalls =
          (List.foldl (geminiStep now) ("", none) cand.parts).2 := by
        simp [parseGeminiResponse, hc]
      intro i tc h
      rw [hl] at h
      exact gemini_fold_ids now cand.parts "" none (by intro i tc h; simp at h)
        i tc h
  refine ⟨hchar, ?_, fun hne i j => geminiId_inj_now now now' i j hne⟩
  intro i j tci tcj hi hj hij heq
  rw [hchar i tci hi, hchar j tcj hj] at heq
  exact hij (geminiId_inj_idx now i j heq)

/-- C9 counterexample: two separate adapter invocations (two turns) whose
`Date.now()` reads fall in the same millisecond each synthesize the id
`"gemini_tc_0_0"` for their first tool call — two tool calls of one run
with the same id, refuting cross-turn uniqueness. -/
theorem C9_cex_same_millisecond :
    ((parseGeminiResponse 0 (mkGeminiResponse
        [GOutPart.functionCall "get_account_info" (Json.obj [])])).toolCalls.getD
        []).map (fun t => t.id) = ["gemini_tc_0_0"] ∧
    ((parseGeminiResponse 0 (mkGeminiResponse
        [GOutPart.functionCall "get_network_params" (Json.obj [])])).toolCalls.getD
        []).map (fun t => t.id) = ["gemini_tc_0_0"] := by
  have h0 : natChars 0 = ['0'] := by rw [natChars]; decide
  have hid : geminiId 0 0 = "gemini_tc_0_0" := by
    rw [geminiId, h0]
    decide
  constructor <;>
    simp [parseGeminiResponse, mkGeminiResponse, geminiStep, jsOr, jsTruthy, hid]
